import Mathlib

/-!
Shallow embedding of the deferred-invocation task schedulers of the
forward_move repository, together with theorems settling the claims of the
specification against it.

Two schedulers occur in the source:

* `TaskScheduler::Scheduler` in `src/examples/comprehensive_example.cpp`
  (lines 225-277): a FIFO `std::vector<Task>` of anonymous tasks plus a
  `std::map<std::string, Task>` of named tasks, where `Task` is
  `std::function<void()>`.
* `ModernAsyncDesign::TaskScheduler` in `src/examples/cpp20_advanced.cpp`
  (lines 218-323): a `std::vector<Task>` of named, prioritised tasks that
  `execute_all` sorts with `std::sort` by descending priority.

A task of the first scheduler is modelled by its identity (`tid`, standing
for the particular callable-plus-arguments closure built by
`schedule_task`) and by whether invoking it throws (`fails`); executing a
batch is observed through the trace of task identities invoked, in order,
and through the C++ exception (if any) that propagates out of
`execute_all`.  `std::map<std::string, Task>` is modelled as a
key-sorted association list with the map's insert-or-overwrite
subscript-assignment.
-/

namespace TaskScheduler

/-- One anonymous task of `TaskScheduler::Scheduler`: the closure that
`schedule_task` builds from a callable and its captured arguments.
`tid` identifies the closure; `fails` records whether invoking it
throws a C++ exception. -/
structure CTask where
  tid : Nat
  fails : Bool
deriving DecidableEq, Repr

/-- Ordered lookup/insert key-value store modelling
`std::map<std::string, Task>`: a list of entries strictly sorted by key. -/
abbrev NamedMap := List (String × CTask)

/-- Read access `namedTasks[name]`: first entry whose key matches. -/
def mapLookup (k : String) : NamedMap → Option CTask
  | [] => none
  | (k₁, v₁) :: rest => if k = k₁ then some v₁ else mapLookup k rest

/-- Subscript assignment `namedTasks[std::move(name)] = std::move(task)`
on a key-sorted list:
insert before the first larger key, overwrite an equal key. -/
def mapInsert (k : String) (v : CTask) : NamedMap → NamedMap
  | [] => [(k, v)]
  | (k₁, v₁) :: rest =>
    if k < k₁ then (k, v) :: (k₁, v₁) :: rest
    else if k = k₁ then (k, v) :: rest
    else (k₁, v₁) :: mapInsert k v rest

/-- Structure `TaskScheduler::Scheduler` (comprehensive_example.cpp lines
225-277):
`std::vector<Task> tasks` and `std::map<std::string, Task> namedTasks`. -/
structure Scheduler where
  tasks : List CTask
  namedTasks : NamedMap
deriving DecidableEq, Repr

/-- Member `schedule_task(func, args...)` (lines 232-244): builds one closure from
the forwarded callable and arguments and appends it to `tasks` with
`emplace_back`; `namedTasks` is untouched. -/
def Scheduler.schedule_task (s : Scheduler) (t : CTask) : Scheduler :=
  { s with tasks := s.tasks ++ [t] }

/-- Member `schedule_named_task(name, task)` (lines 247-250):
`namedTasks[std::move(name)] = std::move(task)`; `tasks` is untouched. -/
def Scheduler.schedule_named_task (s : Scheduler) (n : String) (t : CTask) :
    Scheduler :=
  { s with namedTasks := mapInsert n t s.namedTasks }

/-- Sequential invocation loop `for (auto& task : tasks) task();` with C++
exception semantics: each task is invoked in order; the first task whose
invocation throws ends the loop and its exception propagates.  Returns
the trace of invoked task identities and the propagated exception, if
any, carrying the failing task's identity. -/
def runList : List CTask → List Nat × Option Nat
  | [] => ([], none)
  | t :: rest =>
    if t.fails then ([t.tid], some t.tid)
    else
      let r := runList rest
      (t.tid :: r.1, r.2)

/-- Member `execute_all()` (lines 253-267): invoke the anonymous tasks in vector
order, then `tasks.clear()`, then invoke the named tasks in map (key)
order.  A throwing task aborts the member function at that point, so a
throw in the anonymous loop leaves the whole state unchanged (the
`clear()` is never reached), and a throw in the named loop happens after
the anonymous vector was cleared.  Named tasks are never removed.
Returns (invocation trace, state after, propagated exception). -/
def Scheduler.execute_all (s : Scheduler) :
    List Nat × Scheduler × Option Nat :=
  let r₁ := runList s.tasks
  match r₁.2 with
  | some e => (r₁.1, s, some e)
  | none =>
    let r₂ := runList (s.namedTasks.map Prod.snd)
    (r₁.1 ++ r₂.1, { s with tasks := [] }, r₂.2)

end TaskScheduler

namespace ModernAsyncDesign

/-- Observable step of `ModernAsyncDesign::Task::execute()`
(cpp20_advanced.cpp lines 253-258): the diagnostic print, and the
invocation of the boxed `std::function`. -/
inductive TaskEvent where
  | printExec (name : String)
  | invoke (name : String)
deriving DecidableEq, Repr

/-- Class `ModernAsyncDesign::Task` (cpp20_advanced.cpp lines 218-266): a boxed
`std::function<void()> task_func` (modelled by `has_func`, whether the
function object is non-empty, with its invocation observed as an
`invoke` event), a name and an integer priority. -/
structure Task where
  task_name : String
  priority : Int
  has_func : Bool
deriving DecidableEq, Repr

/-- Member `Task::execute() const` (lines 253-258): unconditionally prints, then
invokes `task_func` when it is non-empty.  The method is `const`, keeps
no flag, and may be called any number of times; each call produces the
same events. -/
def Task.execute (t : Task) : List TaskEvent :=
  TaskEvent.printExec t.task_name ::
    (if t.has_func then [TaskEvent.invoke t.task_name] else [])

/-- Count of invocations of the named task's boxed callable in an event
list. -/
def invokeCount (name : String) : List TaskEvent → Nat
  | [] => 0
  | TaskEvent.invoke n :: rest =>
    (if n = name then 1 else 0) + invokeCount name rest
  | _ :: rest => invokeCount name rest

/-- Class `ModernAsyncDesign::TaskScheduler` (lines 269-323):
`std::vector<Task> tasks` and a scheduler name. -/
structure TaskScheduler where
  tasks : List Task
  scheduler_name : String
deriving DecidableEq, Repr

/-- Member `add_task(name, priority, func)` (lines 297-300): `emplace_back`. -/
def TaskScheduler.add_task (s : TaskScheduler) (name : String)
    (priority : Int) (has_func : Bool) : TaskScheduler :=
  { s with tasks := s.tasks ++ [⟨name, priority, has_func⟩] }

/-- The post-condition of the `std::sort` call in `execute_all`
(lines 306-309) with comparator `a.getPriority() > b.getPriority()`:
pairwise non-ascending priorities. -/
def PrioritySortedDesc (l : List Task) : Prop :=
  l.Pairwise (fun a b => b.priority ≤ a.priority)

/-- Contract of `std::sort` on the task vector: the resulting vector is
some permutation of the input that is sorted by the comparator.
`std::sort` is not stable, so the relative order of equal-priority
tasks in the result is unspecified; this relation therefore admits
every standard-conforming outcome. -/
def IsSortResult (l l' : List Task) : Prop :=
  List.Perm l' l ∧ PrioritySortedDesc l'

/-- Member `execute_all()` (lines 302-316): sort `tasks` in place by descending
priority with `std::sort`, then call `task.execute()` on each element in
the sorted order.  The vector is NOT cleared.  `trace` lists the names
of the tasks in the order their `execute()` is called; `s'` is the
scheduler afterwards.  Relational because `std::sort` leaves the order
of equivalent elements unspecified. -/
def TaskScheduler.ExecuteAllRel (s : TaskScheduler) (trace : List String)
    (s' : TaskScheduler) : Prop :=
  ∃ l', IsSortResult s.tasks l' ∧ trace = l'.map Task.task_name ∧
    s' = { s with tasks := l' }

end ModernAsyncDesign

namespace MoveSemantics

/-- Class `ResourceManager` from `src/examples/move_semantics.cpp`
(lines 23-142),
the reference resource type for ownership-transfer behaviour:
`std::unique_ptr<int[]> data` (modelled by `hasData`, whether the
pointer is non-null, together with the array contents `dataVals`),
`size_t size` and `std::string name`. -/
structure ResourceManager where
  hasData : Bool
  dataVals : List Int
  size : Nat
  name : String
deriving DecidableEq, Repr

/-- The parameterised constructor `ResourceManager(size_t, const string&)`
(lines 36-46): allocates `s` ints initialised to `0, 1, 2, ...`. -/
def ResourceManager.ctor (s : Nat) (n : String) : ResourceManager :=
  { hasData := true
    dataVals := (List.range s).map Int.ofNat
    size := s
    name := n }

/-- Copy constructor (lines 49-61): deep-copies the array when the source
has one, keeps the size, appends "_copy" to the name.  The source is
left untouched. -/
def ResourceManager.copyCtor (other : ResourceManager) : ResourceManager :=
  { hasData := 0 < other.size
    dataVals := if 0 < other.size ∧ other.hasData then other.dataVals else []
    size := other.size
    name := other.name ++ "_copy" }

/-- The state the move constructor (lines 64-75) leaves its source in:
`data` stolen (`unique_ptr` becomes null), `other.size = 0`,
`other.name = "moved_from"`. -/
def movedFromRM : ResourceManager :=
  { hasData := false, dataVals := [], size := 0, name := "moved_from" }

/-- Move constructor `ResourceManager(ResourceManager&&)` (lines 64-75):
returns (the newly constructed object, the residual state of the
source).  The new object steals the `unique_ptr`, the size and the
name; the source is reset to `movedFromRM`. -/
def ResourceManager.moveCtor (other : ResourceManager) :
    ResourceManager × ResourceManager :=
  ({ hasData := other.hasData
     dataVals := other.dataVals
     size := other.size
     name := other.name },
   movedFromRM)

/-- Value category of an argument expression at the `schedule_task` call
site: `rvalue` (a temporary or an explicit `std::move`, transfer
intent) or `lvalue` (a named variable, borrow intent). -/
inductive ValueCategory where
  | rvalue
  | lvalue
deriving DecidableEq, Repr

/-- One step of the capture expression
`args = std::make_tuple(std::forward<Args>(args)...)` inside
`schedule_task` (comprehensive_example.cpp lines 232-244): under perfect
forwarding, an rvalue argument is move-constructed into its tuple slot
(the caller's binding becomes the moved-from residual) while an lvalue
argument is copy-constructed (the caller's binding is untouched).
Returns (value stored in the slot, caller's binding afterwards). -/
def forwardCapture : ValueCategory → ResourceManager →
    ResourceManager × ResourceManager
  | ValueCategory.rvalue, x => ResourceManager.moveCtor x
  | ValueCategory.lvalue, x => (ResourceManager.copyCtor x, x)

/-- The whole capture of a `schedule_task(func, args...)` argument list:
each positional argument is captured independently with
`forwardCapture`.  Returns (tuple of stored slots, the caller's
bindings after `schedule_task` returns, position by position). -/
def captureArgs : List (ValueCategory × ResourceManager) →
    List ResourceManager × List ResourceManager
  | [] => ([], [])
  | (cat, x) :: rest =>
    let c := forwardCapture cat x
    let r := captureArgs rest
    (c.1 :: r.1, c.2 :: r.2)

end MoveSemantics

/-! Concrete inputs used to instantiate the theorems below: small task
populations in the shape of the demonstrations in the source. -/

/-- Two equal-priority tasks, submission order A then B. -/
def tieA : ModernAsyncDesign.Task := ⟨"A", 1, true⟩

/-- Second of the two equal-priority tasks. -/
def tieB : ModernAsyncDesign.Task := ⟨"B", 1, true⟩

/-- A priority scheduler holding the two equal-priority tasks. -/
def tieSched : ModernAsyncDesign.TaskScheduler := ⟨[tieA, tieB], "S"⟩

/-- The specification's priority example: A with priority 1, B with
priority 5, C with priority 3, submitted in that order. -/
def prioExample : List ModernAsyncDesign.Task :=
  [⟨"A", 1, true⟩, ⟨"B", 5, true⟩, ⟨"C", 3, true⟩]

/-- A priority scheduler holding the specification's priority example. -/
def prioSched : ModernAsyncDesign.TaskScheduler := ⟨prioExample, "S"⟩

/-- A FIFO batch in which the middle task throws: A (tid 1) succeeds,
B (tid 2) throws, C (tid 3) would succeed. -/
def failBatchSched : TaskScheduler.Scheduler :=
  ⟨[⟨1, false⟩, ⟨2, true⟩, ⟨3, false⟩], []⟩

/-- A demonstration task of the cpp20 scheduler with a non-empty boxed
function. -/
def netTask : ModernAsyncDesign.Task := ⟨"net", 5, true⟩

/-- A capture site passing one argument with transfer intent and one with
borrow intent, as in the ResourceManager demonstrations. -/
def demoArgs : List (MoveSemantics.ValueCategory × MoveSemantics.ResourceManager) :=
  [(MoveSemantics.ValueCategory.rvalue, MoveSemantics.ResourceManager.ctor 3 "X"),
   (MoveSemantics.ValueCategory.lvalue, MoveSemantics.ResourceManager.ctor 2 "Y")]

namespace TaskScheduler

/-- Invoking a list of tasks none of which throws runs every task in list
order and propagates nothing. -/
theorem runList_ok (l : List CTask) (h : ∀ t ∈ l, t.fails = false) :
    runList l = (l.map CTask.tid, none) := by
  induction l with
  | nil => rfl
  | cons t rest ih =>
    have ht : t.fails = false := h t (List.mem_cons_self t rest)
    have hrest : ∀ u ∈ rest, u.fails = false := fun u hu =>
      h u (List.mem_cons_of_mem t hu)
    simp [runList, ht, ih hrest]

/-- Invoking a list whose first throwing task is `b` runs the prefix and
`b`, then the exception ends the loop: the suffix is never invoked. -/
theorem runList_fail (pre : List CTask) (b : CTask) (post : List CTask)
    (hpre : ∀ t ∈ pre, t.fails = false) (hb : b.fails = true) :
    runList (pre ++ b :: post) = (pre.map CTask.tid ++ [b.tid], some b.tid) := by
  induction pre with
  | nil => simp [runList, hb]
  | cons t rest ih =>
    have ht : t.fails = false := hpre t (List.mem_cons_self t rest)
    have hrest : ∀ u ∈ rest, u.fails = false := fun u hu =>
      hpre u (List.mem_cons_of_mem t hu)
    simp [runList, ht, ih hrest]

/-- When no task throws, `execute_all` runs the anonymous tasks in vector
order followed by the named tasks in map order, clears the anonymous
vector, keeps the named map, and propagates nothing. -/
theorem execute_all_ok (s : Scheduler)
    (h₁ : ∀ t ∈ s.tasks, t.fails = false)
    (h₂ : ∀ p ∈ s.namedTasks, (Prod.snd p).fails = false) :
    s.execute_all =
      (s.tasks.map CTask.tid ++ s.namedTasks.map (fun p => p.2.tid),
       { s with tasks := [] }, none) := by
  have hn : ∀ t ∈ s.namedTasks.map Prod.snd, t.fails = false := by
    intro t ht
    rcases List.mem_map.mp ht with ⟨p, hp, rfl⟩
    exact h₂ p hp
  simp [Scheduler.execute_all, runList_ok _ h₁, runList_ok _ hn, List.map_map]

/-- Subscript assignment stores the assigned task under the key. -/
theorem mapLookup_insert_same (k : String) (v : CTask) (m : NamedMap) :
    mapLookup k (mapInsert k v m) = some v := by
  induction m with
  | nil => simp [mapInsert, mapLookup]
  | cons p rest ih =>
    obtain ⟨k₁, v₁⟩ := p
    by_cases hlt : k < k₁
    · simp [mapInsert, hlt, mapLookup]
    · by_cases heq : k = k₁
      · simp [mapInsert, hlt, heq, mapLookup]
      · simp [mapInsert, hlt, heq, mapLookup, ih]

/-- Subscript assignment leaves every other key's entry unchanged. -/
theorem mapLookup_insert_ne (j k : String) (v : CTask) (m : NamedMap)
    (hjk : j ≠ k) : mapLookup j (mapInsert k v m) = mapLookup j m := by
  induction m with
  | nil => simp [mapInsert, mapLookup, hjk]
  | cons p rest ih =>
    obtain ⟨k₁, v₁⟩ := p
    by_cases hlt : k < k₁
    · simp [mapInsert, hlt, mapLookup, hjk]
    · by_cases heq : k = k₁
      · subst heq
        simp [mapInsert, hlt, mapLookup, hjk]
      · by_cases hj : j = k₁
        · simp [mapInsert, hlt, heq, mapLookup, hj]
        · simp [mapInsert, hlt, heq, mapLookup, hj, ih]

/-- Two successive subscript assignments to one key collapse to the second
assignment: the first task is dropped without trace. -/
theorem mapInsert_insert_same (k : String) (v₁ v₂ : CTask) (m : NamedMap) :
    mapInsert k v₂ (mapInsert k v₁ m) = mapInsert k v₂ m := by
  induction m with
  | nil => simp [mapInsert, lt_irrefl]
  | cons p rest ih =>
    obtain ⟨k₁, w⟩ := p
    by_cases hlt : k < k₁
    · simp [mapInsert, hlt, lt_irrefl]
    · by_cases heq : k = k₁
      · simp [mapInsert, hlt, heq, lt_irrefl]
      · simp [mapInsert, hlt, heq, ih]

/-- Every entry of the list after a subscript assignment either carries the
assigned key or was already present. -/
theorem mapInsert_mem_key (k : String) (v : CTask) (m : NamedMap) :
    ∀ p ∈ mapInsert k v m, p.1 = k ∨ p ∈ m := by
  induction m with
  | nil => intro p hp; simp [mapInsert] at hp; simp [hp]
  | cons q rest ih =>
    obtain ⟨k₁, w⟩ := q
    intro p hp
    by_cases hlt : k < k₁
    · simp [mapInsert, hlt] at hp
      rcases hp with h | h | h
      · left; simp [h]
      · right; simp [h]
      · right; simp [h]
    · by_cases heq : k = k₁
      · simp [mapInsert, hlt, heq] at hp
        rcases hp with h | h
        · left; simp [h, heq]
        · right; simp [h]
      · simp [mapInsert, hlt, heq] at hp
        rcases hp with h | h
        · right; simp [h]
        · rcases ih p h with h' | h'
          · left; exact h'
          · right; simp [h']

/-- Subscript assignment keeps the map strictly sorted by key, the
invariant `std::map` maintains. -/
theorem mapInsert_sorted (k : String) (v : CTask) (m : NamedMap)
    (h : m.Pairwise (fun a b => a.1 < b.1)) :
    (mapInsert k v m).Pairwise (fun a b => a.1 < b.1) := by
  induction m with
  | nil => simp [mapInsert]
  | cons q rest ih =>
    obtain ⟨k₁, w⟩ := q
    rw [List.pairwise_cons] at h
    obtain ⟨hhead, hrest⟩ := h
    by_cases hlt : k < k₁
    · simp only [mapInsert, if_pos hlt]
      rw [List.pairwise_cons]
      constructor
      · intro p hp
        rcases List.mem_cons.mp hp with rfl | hp'
        · exact hlt
        · exact lt_trans hlt (hhead p hp')
      · rw [List.pairwise_cons]
        exact ⟨hhead, hrest⟩
    · by_cases heq : k = k₁
      · subst heq
        have hstep : mapInsert k v ((k, w) :: rest) = (k, v) :: rest := by
          simp [mapInsert, hlt]
        rw [hstep, List.pairwise_cons]
        exact ⟨hhead, hrest⟩
      · simp only [mapInsert, if_neg hlt, if_neg heq]
        rw [List.pairwise_cons]
        constructor
        · intro p hp
          rcases mapInsert_mem_key k v rest p hp with h' | h'
          · rw [h']
            rcases lt_trichotomy k k₁ with h'' | h'' | h''
            · exact absurd h'' hlt
            · exact absurd h'' heq
            · exact h''
          · exact hhead p h'
        · exact ih hrest

end TaskScheduler


namespace MoveSemantics

theorem captureArgs_snd (l : List (ValueCategory × ResourceManager)) :
    (captureArgs l).2 = l.map (fun p => (forwardCapture p.1 p.2).2) := by
  induction l with
  | nil => rfl
  | cons p rest ih => simp [captureArgs, ih]

end MoveSemantics

open TaskScheduler MoveSemantics

/-- Claim C1: if an argument is submitted to `schedule_task` with transfer
intent (an rvalue), the caller's binding is the emptied moved-from
residual after `submit` returns; if with borrow intent (an lvalue), the
caller's binding is unchanged. -/
theorem C1_ownership_mode_fidelity
    (args : List (ValueCategory × ResourceManager)) (i : Nat)
    (cat : ValueCategory) (x : ResourceManager)
    (h : args[i]? = some (cat, x)) :
    (cat = ValueCategory.rvalue →
      (captureArgs args).2[i]? = some movedFromRM ∧
      ∀ r, (captureArgs args).2[i]? = some r →
        r.hasData = false ∧ r.size = 0) ∧
    (cat = ValueCategory.lvalue → (captureArgs args).2[i]? = some x) := by
  have hmap : (captureArgs args).2[i]? =
      args[i]?.map (fun p => (forwardCapture p.1 p.2).2) := by
    rw [captureArgs_snd, List.getElem?_map]
  rw [hmap, h]
  constructor
  · rintro rfl
    refine ⟨rfl, ?_⟩
    rintro r hr
    simp [forwardCapture, ResourceManager.moveCtor, movedFromRM] at hr
    simp [← hr, movedFromRM]
  · rintro rfl
    rfl

/-- Witness for C1 at a concrete capture site: the rvalue argument's
binding is left in the moved-from state, the lvalue argument's binding
keeps its value. -/
theorem C1_ownership_mode_fidelity_witness :
    (captureArgs demoArgs).2[0]? = some movedFromRM ∧
    (captureArgs demoArgs).2[1]? = some (ResourceManager.ctor 2 "Y") :=
  ⟨((C1_ownership_mode_fidelity demoArgs 0 ValueCategory.rvalue
      (ResourceManager.ctor 3 "X") rfl).1 rfl).1,
   (C1_ownership_mode_fidelity demoArgs 1 ValueCategory.lvalue
      (ResourceManager.ctor 2 "Y") rfl).2 rfl⟩

/-- Claim C2: three tasks submitted anonymously, none of which throws, are
executed by `execute_all` in exactly their submission order. -/
theorem C2_fifo_order (a b c : CTask)
    (ha : a.fails = false) (hb : b.fails = false) (hc : c.fails = false) :
    ((((Scheduler.mk [] []).schedule_task a).schedule_task b).schedule_task
        c).execute_all =
      ([a.tid, b.tid, c.tid], Scheduler.mk [] [], none) := by
  have hs : (((Scheduler.mk [] []).schedule_task a).schedule_task
      b).schedule_task c = Scheduler.mk [a, b, c] [] := by
    simp [Scheduler.schedule_task]
  rw [hs, execute_all_ok]
  · rfl
  · intro t ht
    rcases List.mem_cons.mp ht with rfl | ht'
    · exact ha
    rcases List.mem_cons.mp ht' with rfl | ht''
    · exact hb
    rcases List.mem_cons.mp ht'' with rfl | ht'''
    · exact hc
    · simp at ht'''
  · intro p hp
    simp at hp

/-- Witness for C2: tasks 1, 2, 3 run in order 1, 2, 3. -/
theorem C2_fifo_order_witness :
    ((((Scheduler.mk [] []).schedule_task ⟨1, false⟩).schedule_task
        ⟨2, false⟩).schedule_task ⟨3, false⟩).execute_all =
      ([1, 2, 3], Scheduler.mk [] [], none) :=
  C2_fifo_order ⟨1, false⟩ ⟨2, false⟩ ⟨3, false⟩ rfl rfl rfl

/-- Counterexample to claim C3 as stated: the pre-run sort is `std::sort`,
which is not stable, so on two equal-priority tasks submitted in order
A, B the execution order B, A is a standard-conforming outcome of
`execute_all`; ties are not guaranteed to run in submission order. -/
theorem C3_counterexample :
    tieSched.ExecuteAllRel ["B", "A"] ⟨[tieB, tieA], "S"⟩ ∧
    ["B", "A"] ≠ ["A", "B"] := by
  constructor
  · refine ⟨[tieB, tieA], ⟨?_, ?_⟩, rfl, rfl⟩
    · decide
    · unfold ModernAsyncDesign.PrioritySortedDesc
      decide
  · decide

/-- Claim C3 amended: every outcome of `execute_all` runs the submitted
tasks in some priority-descending permutation, and on the
specification's example (A: priority 1, B: priority 5, C: priority 3,
all priorities distinct) that order is uniquely B, C, A; the relative
order of equal-priority tasks is unspecified because `std::sort` is not
stable. -/
theorem C3_priority_order (s : ModernAsyncDesign.TaskScheduler)
    (tr : List String) (s' : ModernAsyncDesign.TaskScheduler)
    (h : s.ExecuteAllRel tr s') :
    (List.Perm s'.tasks s.tasks ∧
     ModernAsyncDesign.PrioritySortedDesc s'.tasks ∧
     tr = s'.tasks.map ModernAsyncDesign.Task.task_name) ∧
    (s.tasks = prioExample → tr = ["B", "C", "A"]) := by
  obtain ⟨l', ⟨hperm, hsort⟩, htr, hs'⟩ := h
  subst hs'
  refine ⟨⟨hperm, hsort, htr⟩, ?_⟩
  intro hdemo
  rw [hdemo] at hperm
  have hm : l' ∈ prioExample.permutations' := List.mem_permutations'.mpr hperm
  have key : ∀ l'' ∈ prioExample.permutations',
      l''.Pairwise (fun a b => b.priority ≤ a.priority) →
      l'' = [⟨"B", 5, true⟩, ⟨"C", 3, true⟩, ⟨"A", 1, true⟩] := by
    decide
  rw [htr, key l' hm hsort]
  rfl

/-- Witness for C3 at the specification's example: the unique permitted
execution order is B, C, A. -/
theorem C3_priority_order_witness :
    List.Perm [(⟨"B", 5, true⟩ : ModernAsyncDesign.Task), ⟨"C", 3, true⟩,
      ⟨"A", 1, true⟩] prioSched.tasks ∧
    (["B", "C", "A"] : List String) = ["B", "C", "A"] := by
  have h : prioSched.ExecuteAllRel ["B", "C", "A"]
      ⟨[⟨"B", 5, true⟩, ⟨"C", 3, true⟩, ⟨"A", 1, true⟩], "S"⟩ := by
    refine ⟨[⟨"B", 5, true⟩, ⟨"C", 3, true⟩, ⟨"A", 1, true⟩], ⟨?_, ?_⟩, rfl, rfl⟩
    · decide
    · unfold ModernAsyncDesign.PrioritySortedDesc
      decide
  have hc := C3_priority_order prioSched ["B", "C", "A"] _ h
  exact ⟨hc.1.1, hc.2 rfl⟩

/-- Counterexample to claim C4 as stated: the priority variant's
`execute_all` never clears its task vector, so after a run on the
three-task demonstration population the anonymous collection still
holds all three tasks, and a second `execute_all` would run them
again. -/
theorem C4_counterexample :
    prioSched.ExecuteAllRel ["B", "C", "A"]
      ⟨[⟨"B", 5, true⟩, ⟨"C", 3, true⟩, ⟨"A", 1, true⟩], "S"⟩ ∧
    ([(⟨"B", 5, true⟩ : ModernAsyncDesign.Task), ⟨"C", 3, true⟩,
      ⟨"A", 1, true⟩] ≠ []) := by
  constructor
  · refine ⟨[⟨"B", 5, true⟩, ⟨"C", 3, true⟩, ⟨"A", 1, true⟩], ⟨?_, ?_⟩, rfl, rfl⟩
    · decide
    · unfold ModernAsyncDesign.PrioritySortedDesc
      decide
  · decide

/-- Claim C4 amended: the FIFO scheduler's `execute_all` does clear the
anonymous collection when no task throws, so its second run executes
only named tasks; but the priority variant's `execute_all` keeps every
submitted task in its vector (a permutation of them remains), so a
second run executes them all again. -/
theorem C4_run_all_clearing (s : Scheduler)
    (p : ModernAsyncDesign.TaskScheduler) (tr : List String)
    (p' : ModernAsyncDesign.TaskScheduler)
    (h₁ : ∀ t ∈ s.tasks, t.fails = false)
    (h₂ : ∀ q ∈ s.namedTasks, (Prod.snd q).fails = false)
    (hp : p.ExecuteAllRel tr p') :
    ((s.execute_all.2.1).tasks = [] ∧
     (s.execute_all.2.1).execute_all.1 =
       s.namedTasks.map (fun q => q.2.tid)) ∧
    List.Perm p'.tasks p.tasks := by
  have hrun := execute_all_ok s h₁ h₂
  constructor
  · constructor
    · rw [hrun]
    · rw [hrun]
      have h₂' : ∀ q ∈ ({ s with tasks := [] } : Scheduler).namedTasks,
          (Prod.snd q).fails = false := h₂
      rw [execute_all_ok _ (by intro t ht; simp at ht) h₂']
      simp
  · obtain ⟨l', ⟨hperm, _⟩, _, hp'⟩ := hp
    subst hp'
    exact hperm

/-- Witness for C4: a FIFO scheduler with one anonymous and one named task
ends its run with an empty anonymous vector and its second run executes
only the named task, while the priority demonstration scheduler keeps
its three tasks. -/
theorem C4_run_all_clearing_witness :
    ((Scheduler.mk [⟨1, false⟩] [("x", ⟨9, false⟩)]).execute_all.2.1.tasks
        = [] ∧
     (Scheduler.mk [⟨1, false⟩]
        [("x", ⟨9, false⟩)]).execute_all.2.1.execute_all.1 = [9]) ∧
    List.Perm ([(⟨"B", 5, true⟩ : ModernAsyncDesign.Task), ⟨"C", 3, true⟩,
      ⟨"A", 1, true⟩]) prioSched.tasks := by
  have h := C4_run_all_clearing (Scheduler.mk [⟨1, false⟩] [("x", ⟨9, false⟩)])
    prioSched ["B", "C", "A"]
    ⟨[⟨"B", 5, true⟩, ⟨"C", 3, true⟩, ⟨"A", 1, true⟩], "S"⟩
    (by decide) (by decide)
    ⟨[⟨"B", 5, true⟩, ⟨"C", 3, true⟩, ⟨"A", 1, true⟩],
      ⟨by decide, by unfold ModernAsyncDesign.PrioritySortedDesc; decide⟩,
      rfl, rfl⟩
  exact h

/-- Claim C5: when no task throws, `execute_all` runs every anonymous task
(in vector order) before any named task, and the named tasks run in
strictly ascending key order (the `std::map` iteration order). -/
theorem C5_anonymous_before_named (s : Scheduler)
    (hwf : s.namedTasks.Pairwise (fun a b => a.1 < b.1))
    (h₁ : ∀ t ∈ s.tasks, t.fails = false)
    (h₂ : ∀ q ∈ s.namedTasks, (Prod.snd q).fails = false) :
    s.execute_all.1 =
      s.tasks.map CTask.tid ++ s.namedTasks.map (fun q => q.2.tid) ∧
    (s.namedTasks.map Prod.fst).Pairwise (fun a b => a < b) := by
  constructor
  · rw [execute_all_ok s h₁ h₂]
  · exact List.Pairwise.map Prod.fst (fun _ _ h => h) hwf

/-- Witness for C5: one anonymous task (tid 1) and named tasks under keys
"a" (tid 8) and "b" (tid 9) run anonymously first, then by ascending
key. -/
theorem C5_anonymous_before_named_witness :
    (Scheduler.mk [⟨1, false⟩]
        [("a", ⟨8, false⟩), ("b", ⟨9, false⟩)]).execute_all.1 = [1, 8, 9] ∧
    (([("a", (⟨8, false⟩ : CTask)), ("b", ⟨9, false⟩)].map
        Prod.fst).Pairwise (fun a b => a < b)) := by
  have hab : ("a" : String) < "b" := String.lt_iff_toList_lt.mpr (by decide)
  have hwf : ([("a", (⟨8, false⟩ : CTask)), ("b", ⟨9, false⟩)] :
      NamedMap).Pairwise (fun a b => a.1 < b.1) := by
    refine List.pairwise_cons.mpr ⟨?_, List.pairwise_singleton _ _⟩
    intro q hq
    rw [List.mem_singleton.mp hq]
    exact hab
  have h := C5_anonymous_before_named
    (Scheduler.mk [⟨1, false⟩] [("a", ⟨8, false⟩), ("b", ⟨9, false⟩)])
    hwf (by decide) (by decide)
  refine ⟨?_, h.2⟩
  rw [h.1]
  rfl

/-- Claim C6: a second `schedule_named_task` under the same name replaces
the first task wholesale (the two-submission scheduler equals the
one-submission scheduler), the named collection holds the second task
under that key, and a run executes only the second task. -/
theorem C6_named_overwrite (s : Scheduler) (n : String) (t₁ t₂ : CTask)
    (h : t₂.fails = false) :
    (s.schedule_named_task n t₁).schedule_named_task n t₂ =
      s.schedule_named_task n t₂ ∧
    mapLookup n
      ((s.schedule_named_task n t₁).schedule_named_task n t₂).namedTasks =
      some t₂ ∧
    (((Scheduler.mk [] []).schedule_named_task n t₁).schedule_named_task n
        t₂).execute_all =
      ([t₂.tid], (Scheduler.mk [] []).schedule_named_task n t₂, none) := by
  refine ⟨?_, ?_, ?_⟩
  · simp [Scheduler.schedule_named_task, mapInsert_insert_same]
  · simp [Scheduler.schedule_named_task, mapInsert_insert_same,
      mapLookup_insert_same]
  · have hs : ((Scheduler.mk [] []).schedule_named_task n
        t₁).schedule_named_task n t₂ =
        (Scheduler.mk [] []).schedule_named_task n t₂ := by
      simp [Scheduler.schedule_named_task, mapInsert_insert_same]
    rw [hs]
    simp [Scheduler.schedule_named_task, mapInsert, Scheduler.execute_all,
      runList, h]

/-- Witness for C6 under key "x". -/
theorem C6_named_overwrite_witness :
    mapLookup "x"
      (((Scheduler.mk [] []).schedule_named_task "x"
        ⟨1, true⟩).schedule_named_task "x" ⟨2, false⟩).namedTasks =
      some ⟨2, false⟩ ∧
    (((Scheduler.mk [] []).schedule_named_task "x"
        ⟨1, true⟩).schedule_named_task "x" ⟨2, false⟩).execute_all =
      ([2], (Scheduler.mk [] []).schedule_named_task "x" ⟨2, false⟩, none) := by
  have h := C6_named_overwrite (Scheduler.mk [] []) "x" ⟨1, true⟩ ⟨2, false⟩ rfl
  exact ⟨h.2.1, h.2.2⟩

/-- Claim C7: `execute_all` never erases a named task: the named
collection after a run is exactly the one before it, whether or not a
task throws. -/
theorem C7_named_tasks_survive (s : Scheduler) :
    (s.execute_all.2.1).namedTasks = s.namedTasks := by
  unfold Scheduler.execute_all
  cases hr : (runList s.tasks).2 <;> simp [hr]

/-- Counterexample to claim C8 as stated: with a FIFO batch A (tid 1),
B (tid 2, throws), C (tid 3), `execute_all` invokes only A and B; the
exception propagates out of `execute_all`, so C never executes, nothing
is cleared, and no per-task error list is returned. -/
theorem C8_counterexample :
    failBatchSched.execute_all = ([1, 2], failBatchSched, some 2) ∧
    3 ∉ failBatchSched.execute_all.1 := by
  constructor
  · rfl
  · decide

/-- Claim C8 amended: when a task in the anonymous batch throws, the tasks
before it have executed, the failing task's exception propagates out of
`execute_all` immediately (no later task in the batch executes, no
named task executes, and the collections are left exactly as they
were); `execute_all` returns no error list. -/
theorem C8_partial_failure (s : Scheduler) (pre : List CTask) (b : CTask)
    (post : List CTask) (hs : s.tasks = pre ++ b :: post)
    (hpre : ∀ t ∈ pre, t.fails = false) (hb : b.fails = true) :
    s.execute_all = (pre.map CTask.tid ++ [b.tid], s, some b.tid) := by
  unfold Scheduler.execute_all
  rw [hs, runList_fail pre b post hpre hb]

/-- Witness for C8 on the concrete failing batch. -/
theorem C8_partial_failure_witness :
    (Scheduler.mk [⟨4, false⟩, ⟨5, true⟩, ⟨6, false⟩]
      [("x", ⟨7, false⟩)]).execute_all =
      ([4, 5], Scheduler.mk [⟨4, false⟩, ⟨5, true⟩, ⟨6, false⟩]
        [("x", ⟨7, false⟩)], some 5) :=
  C8_partial_failure
    (Scheduler.mk [⟨4, false⟩, ⟨5, true⟩, ⟨6, false⟩] [("x", ⟨7, false⟩)])
    [⟨4, false⟩] ⟨5, true⟩ [⟨6, false⟩] rfl (by decide) rfl

/-- Counterexample to claim C9 as stated: `Task::execute` is a `const`
member with no executed-flag, so calling it twice on a task with a
non-empty boxed function invokes the callable twice; no
`AlreadyExecuted` error exists anywhere in the code. -/
theorem C9_counterexample :
    ModernAsyncDesign.invokeCount "net" (netTask.execute ++ netTask.execute) = 2 ∧
    (2 : Nat) ≠ 1 := by
  constructor
  · rfl
  · decide

/-- Claim C9 amended: one call of `Task::execute` on a task with a
non-empty boxed function invokes the callable exactly once, and a
second call invokes it again (twice in total); the code signals no
error on re-execution. -/
theorem C9_reexecution (t : ModernAsyncDesign.Task)
    (h : t.has_func = true) :
    ModernAsyncDesign.invokeCount t.task_name t.execute = 1 ∧
    ModernAsyncDesign.invokeCount t.task_name (t.execute ++ t.execute) = 2 := by
  simp [ModernAsyncDesign.Task.execute, ModernAsyncDesign.invokeCount, h]

/-- Witness for C9 on the concrete demonstration task. -/
theorem C9_reexecution_witness :
    ModernAsyncDesign.invokeCount "net" netTask.execute = 1 ∧
    ModernAsyncDesign.invokeCount "net" (netTask.execute ++ netTask.execute) = 2 :=
  C9_reexecution netTask rfl

/-- Claim C10: `schedule_task` appends exactly its one new task to the
anonymous vector and leaves the named map untouched;
`schedule_named_task` leaves the anonymous vector untouched and changes
the named map only at its own key. -/
theorem C10_submission_frame (s : Scheduler) (t : CTask) (n : String)
    (u : CTask) (k : String) (hk : k ≠ n) :
    ((s.schedule_task t).tasks = s.tasks ++ [t] ∧
     (s.schedule_task t).namedTasks = s.namedTasks) ∧
    ((s.schedule_named_task n u).tasks = s.tasks ∧
     mapLookup n (s.schedule_named_task n u).namedTasks = some u ∧
     mapLookup k (s.schedule_named_task n u).namedTasks =
       mapLookup k s.namedTasks) := by
  refine ⟨⟨rfl, rfl⟩, rfl, ?_, ?_⟩
  · exact mapLookup_insert_same n u s.namedTasks
  · exact mapLookup_insert_ne k n u s.namedTasks hk

/-- Witness for C10 on a concrete scheduler. -/
theorem C10_submission_frame_witness :
    ((Scheduler.mk [⟨1, false⟩] [("a", ⟨8, false⟩)]).schedule_task
        ⟨2, false⟩).tasks = [⟨1, false⟩, ⟨2, false⟩] ∧
    mapLookup "b"
      ((Scheduler.mk [⟨1, false⟩] [("a", ⟨8, false⟩)]).schedule_named_task
        "b" ⟨9, false⟩).namedTasks = some ⟨9, false⟩ ∧
    mapLookup "a"
      ((Scheduler.mk [⟨1, false⟩] [("a", ⟨8, false⟩)]).schedule_named_task
        "b" ⟨9, false⟩).namedTasks =
      mapLookup "a" [("a", ⟨8, false⟩)] := by
  have h := C10_submission_frame
    (Scheduler.mk [⟨1, false⟩] [("a", ⟨8, false⟩)]) ⟨2, false⟩ "b"
    ⟨9, false⟩ "a" (by decide)
  exact ⟨h.1.1, h.2.2.1, h.2.2.2⟩
